import Mathlib

/-!
Shallow embedding of the cubana runtime-support shim (`src/src/culibc.h`):
the leveled logger (an embedded copy of rxi's `log.c`) and the error-code
string table.  Pointers are modelled as natural numbers with `Option`
marking the possibility of NULL where the code tests for it; the global
logger singleton `L` becomes an explicit `LogState` value threaded through
the operations; output side effects become returned values.
-/

namespace Culibc

/-- `MAX_CALLBACKS` from the source: capacity of the callback array. -/
def MAX_CALLBACKS : Nat := 2

/-- The `Callback` struct: a function pointer (NULL modelled as `none`),
an opaque `udata` pointer and a minimum level.  Levels are C `int`s,
modelled as `Int`. -/
structure Callback where
  fn : Option Nat
  udata : Nat
  level : Int
deriving DecidableEq

/-- The global logger singleton `L`: unused `udata` pointer, global
minimum level, quiet flag, and the fixed-capacity callback array
(modelled as a list; all reachable states have length `MAX_CALLBACKS`). -/
structure LogState where
  udata : Nat
  level : Int
  quiet : Bool
  callbacks : List Callback
deriving DecidableEq

/-- `L` at program start: C static storage is zero-initialized, so the
level is 0 (TRACE), quiet is false and every callback slot has a NULL
function pointer. -/
def initState : LogState :=
  { udata := 0, level := 0, quiet := false,
    callbacks := List.replicate MAX_CALLBACKS { fn := none, udata := 0, level := 0 } }

/-- `level_strings` from the source. -/
def level_strings : List String :=
  ["TRACE", "DEBUG", "INFO", "WARN", "ERROR", "FATAL"]

/-- `error_code_strings` from the source (`errorcodes` part of the file). -/
def error_code_strings : List String :=
  ["CU_SUCCESS", "CU_FAILURE", "CU_LOG_FILE_ERROR", "CU_FILE_CLOSE_ERROR"]

/-- `ErrorCodeToString`: a direct array index with no bounds check; the
out-of-bounds case, undefined behaviour in C, surfaces as `none` here. -/
def ErrorCodeToString (error_code : Nat) : Option String :=
  error_code_strings[error_code]?

/-- `log_set_level`. -/
def log_set_level (s : LogState) (level : Int) : LogState :=
  { s with level := level }

/-- `log_set_quiet`. -/
def log_set_quiet (s : LogState) (enable : Bool) : LogState :=
  { s with quiet := enable }

/-- The slot-search loop of `log_add_callback`: find the first slot whose
function pointer is NULL and store the new callback there; `none` when
every slot is taken (the loop falls through). -/
def addCallbackLoop (cbs : List Callback) (newCb : Callback) : Option (List Callback) :=
  match cbs with
  | [] => none
  | c :: rest =>
    if c.fn.isNone then some (newCb :: rest)
    else (addCallbackLoop rest newCb).map (c :: ·)

/-- `log_add_callback`: returns the updated state together with the C
return value (0 on success, -1 when the array is full). -/
def log_add_callback (s : LogState) (fn : Option Nat) (udata : Nat) (level : Int) :
    LogState × Int :=
  match addCallbackLoop s.callbacks { fn := fn, udata := udata, level := level } with
  | some cbs => ({ s with callbacks := cbs }, 0)
  | none => (s, -1)

/-- The address of `file_callback`; any fixed non-NULL pointer value. -/
def file_callback_ptr : Nat := 1

/-- `log_add_fp`: registers `file_callback` with the file object as udata. -/
def log_add_fp (s : LogState) (file : Nat) (level : Int) : LogState × Int :=
  log_add_callback s (some file_callback_ptr) file level

/-- A destination handle: the console branch writes to `stderr`, a
callback writes to its registered udata pointer. -/
inductive Dest
  | stderrDest
  | user (p : Nat)
deriving DecidableEq

/-- A broken-down calendar time (the libc `struct tm` fields the two
`strftime` format strings read). -/
structure Tm where
  year : Nat
  month : Nat
  day : Nat
  hour : Nat
  minute : Nat
  second : Nat
deriving DecidableEq

/-- Zero-pad a number to two digits, as `strftime`'s `%H`, `%M`, `%S`,
`%m`, `%d` do. -/
def pad2 (n : Nat) : String :=
  if n < 10 then "0" ++ toString n else toString n

/-- Models the libc `strftime` call with format `"%H:%M:%S"` used by
`stdout_callback`. -/
def strftime_HMS (t : Tm) : String :=
  pad2 t.hour ++ ":" ++ pad2 t.minute ++ ":" ++ pad2 t.second

/-- Models the libc `strftime` call with format `"%Y-%m-%d %H:%M:%S"`
used by `file_callback`. -/
def strftime_YMDHMS (t : Tm) : String :=
  toString t.year ++ "-" ++ pad2 t.month ++ "-" ++ pad2 t.day ++ " " ++ strftime_HMS t

/-- The `log_Event` struct.  The format string and `va_list` pair is
abstracted to `msg`, the already-formatted message text (`vfprintf` /
`FileWriteStrfv` on `fmt` and `ap` produce exactly this text).  The C
struct leaves `udata` unset (zeroed) until `init_event` fills it, hence
the `Option`.  The time, fetched lazily by `init_event` on the first
emission and shared by all emissions of one call, is a `Tm` fixed at
construction here: every emission of a call sees the same value either
way. -/
structure log_Event where
  msg : String
  file : String
  line : Int
  level : Int
  time : Tm
  udata : Option Dest
deriving DecidableEq

/-- `init_event`: set the event's destination (the time field is already
accounted for, see `log_Event.time`). -/
def init_event (ev : log_Event) (udata : Dest) : log_Event :=
  { ev with udata := some udata }

/-- An argument consumed by a `printf`-style conversion. -/
inductive FmtArg
  | str (s : String)
  | int (i : Int)
deriving DecidableEq

/-- Left-justified padding to a field width, as `%-5s` / `%-6s` do
(no truncation). -/
def padLeftJust (s : String) (w : Nat) : String :=
  s ++ String.mk (List.replicate (w - s.length) ' ')

/-- Interpreter for the `printf` format strings the logger uses: handles
the `%s`, `%-5s`, `%-6s` and `%d` conversions and copies every other
character through. -/
def formatPrintf : List Char → List FmtArg → String
  | [], _ => ""
  | '%' :: '-' :: '6' :: 's' :: rest, FmtArg.str s :: args =>
    padLeftJust s 6 ++ formatPrintf rest args
  | '%' :: '-' :: '5' :: 's' :: rest, FmtArg.str s :: args =>
    padLeftJust s 5 ++ formatPrintf rest args
  | '%' :: 's' :: rest, FmtArg.str s :: args => s ++ formatPrintf rest args
  | '%' :: 'd' :: rest, FmtArg.int i :: args => toString i ++ formatPrintf rest args
  | c :: rest, args => String.singleton c ++ formatPrintf rest args

/-- What one sink emission leaves behind: the bytes written to the
destination and whether the destination was flushed. -/
structure SinkOutput where
  written : String
  flushed : Bool
deriving DecidableEq

/-- The level tag `level_strings[ev->level]`; the C array access has no
bounds check (out of range is undefined behaviour), the default here is
only ever exercised out of contract. -/
def levelTag (level : Int) : String :=
  level_strings.getD level.toNat ""

/-- `stdout_callback` (the `LOG_USE_COLOR`-off branch): one `fprintf`
with format `"%s %-6s %s:%d: "`, then `vfprintf` of the message, then a
newline, then `fflush`. -/
def stdout_callback (ev : log_Event) : SinkOutput :=
  { written :=
      formatPrintf "%s %-6s %s:%d: ".data
        [FmtArg.str (strftime_HMS ev.time), FmtArg.str (levelTag ev.level),
         FmtArg.str ev.file, FmtArg.int ev.line]
      ++ ev.msg ++ "\n",
    flushed := true }

/-- Modelled from the spec: `FileWriteStrf` / `FileWriteStrfv` live in
`file.h`, which is not part of the sources; per the spec each emission
is written out and "flushes immediately", so the file writes are
modelled as flushing. -/
def fileWritesFlush : Bool := true

/-- `file_callback`: `FileWriteStrf` with format `"%s %-6s %s:%d: "`
(timestamp now `"%Y-%m-%d %H:%M:%S"`), then `FileWriteStrfv` of the
message, then a newline. -/
def file_callback (ev : log_Event) : SinkOutput :=
  { written :=
      formatPrintf "%s %-6s %s:%d: ".data
        [FmtArg.str (strftime_YMDHMS ev.time), FmtArg.str (levelTag ev.level),
         FmtArg.str ev.file, FmtArg.int ev.line]
      ++ ev.msg ++ "\n",
    flushed := fileWritesFlush }

/-- One callback invocation performed by `log_log`'s dispatch loop:
which slot fired, the registered callback and the event it received. -/
structure CallbackCall where
  slot : Nat
  cb : Callback
  ev : log_Event
deriving DecidableEq

/-- The dispatch loop of `log_log`
(`for i = 0; i < MAX_CALLBACKS AND callbacks[i].fn; i++`): it stops at
the first slot with a NULL function pointer, and a visited slot fires
when the call's level reaches the slot's own threshold.  `i` is the
index of the first slot of `cbs` in the original array. -/
def runCallbacksFrom (cbs : List Callback) (i : Nat) (ev : log_Event) :
    List CallbackCall :=
  match cbs with
  | [] => []
  | c :: rest =>
    match c.fn with
    | none => []
    | some _ =>
      (if ev.level ≥ c.level then
        [{ slot := i, cb := c, ev := init_event ev (Dest.user c.udata) }]
       else [])
      ++ runCallbacksFrom rest (i + 1) ev

/-- `log_log`: builds the event, runs the default console sink when the
quiet flag is off and the level reaches the global level, then runs the
dispatch loop over the registered callbacks.  The logger state is not
modified; the returned pair is the console emission (if any) and the
list of callback invocations. -/
def log_log (s : LogState) (now : Tm) (level : Int) (file : String) (line : Int)
    (msg : String) : Option SinkOutput × List CallbackCall :=
  let ev : log_Event :=
    { msg := msg, file := file, line := line, level := level, time := now, udata := none }
  ( if !s.quiet && decide (level ≥ s.level) then
      some (stdout_callback (init_event ev Dest.stderrDest))
    else none,
    runCallbacksFrom s.callbacks 0 ev )

/-- Does the dispatch output of a `log_log` call include an invocation of
the callback in slot `i`? -/
def invokesSlot (calls : List CallbackCall) (i : Nat) : Bool :=
  calls.any (fun c => c.slot == i)

/-- The public operations of the logger interface. -/
inductive LogOp
  | set_level (level : Int)
  | set_quiet (enable : Bool)
  | add_callback (fn : Option Nat) (udata : Nat) (level : Int)
  | add_fp (file : Nat) (level : Int)
  | log (now : Tm) (level : Int) (file : String) (line : Int) (msg : String)
deriving DecidableEq

/-- The state transition of each operation; `log_log` reads the state
but never writes it. -/
def applyOp (s : LogState) : LogOp → LogState
  | LogOp.set_level level => log_set_level s level
  | LogOp.set_quiet enable => log_set_quiet s enable
  | LogOp.add_callback fn udata level => (log_add_callback s fn udata level).1
  | LogOp.add_fp file level => (log_add_fp s file level).1
  | LogOp.log _ _ _ _ _ => s

/-- The logger states reachable from process start through the public
interface. -/
inductive Reachable : LogState → Prop
  | init : Reachable initState
  | step {s : LogState} (op : LogOp) : Reachable s → Reachable (applyOp s op)

/-- Number of occupied (non-NULL function pointer) callback slots. -/
def registeredCount (cbs : List Callback) : Nat :=
  (cbs.filter (fun c => c.fn.isSome)).length

/-- Index of the first slot with a NULL function pointer, the slot
`log_add_callback` would write. -/
def firstFreeIdx : List Callback → Option Nat
  | [] => none
  | c :: rest =>
    if c.fn.isNone then some 0 else (firstFreeIdx rest).map (· + 1)

/-- Does slot `k` of the callback array fire on a call at `level`?  The
dispatch loop reaches slot `k` only when every earlier slot is occupied,
and a reached slot fires when `level` meets its threshold.  (Proved below
to agree with the loop `runCallbacksFrom`.) -/
def slotFires (cbs : List Callback) (k : Nat) (level : Int) : Bool :=
  match cbs, k with
  | [], _ => false
  | c :: _, 0 => c.fn.isSome && decide (level ≥ c.level)
  | c :: rest, k + 1 => c.fn.isSome && slotFires rest k level

theorem addCallbackLoop_eq_set (cbs : List Callback) (newCb : Callback) :
    addCallbackLoop cbs newCb = (firstFreeIdx cbs).map (fun i => cbs.set i newCb) := by
  induction cbs with
  | nil => rfl
  | cons c rest ih =>
    simp only [addCallbackLoop, firstFreeIdx]
    by_cases h : c.fn.isNone
    · simp [h]
    · simp only [h, if_false, ih, Option.map_map]
      cases firstFreeIdx rest <;> simp [List.set]

theorem firstFreeIdx_spec (cbs : List Callback) (i : Nat)
    (h : firstFreeIdx cbs = some i) : cbs[i]?.map Callback.fn = some none := by
  induction cbs generalizing i with
  | nil => simp [firstFreeIdx] at h
  | cons c rest ih =>
    simp only [firstFreeIdx] at h
    by_cases hc : c.fn.isNone
    · simp only [hc, if_true] at h
      obtain rfl : i = 0 := by simpa using h.symm
      simpa [Option.isNone_iff_eq_none] using hc
    · simp only [hc, if_false] at h
      cases hrest : firstFreeIdx rest with
      | none => simp [hrest] at h
      | some j =>
        simp only [hrest, Option.map_some'] at h
        obtain rfl : i = j + 1 := by simpa using h.symm
        simpa using ih j hrest

theorem firstFreeIdx_lt_length (cbs : List Callback) (i : Nat)
    (h : firstFreeIdx cbs = some i) : i < cbs.length := by
  have := firstFreeIdx_spec cbs i h
  by_contra hlen
  rw [List.getElem?_eq_none (by omega)] at this
  simp at this

/-- Normal form of `log_add_callback`: it writes the new triple into the
first free slot when one exists and fails leaving the state alone
otherwise. -/
theorem log_add_callback_eq (s : LogState) (fn : Option Nat) (u : Nat) (l : Int) :
    log_add_callback s fn u l =
      match firstFreeIdx s.callbacks with
      | some i => ({ s with callbacks := s.callbacks.set i ⟨fn, u, l⟩ }, 0)
      | none => (s, -1) := by
  unfold log_add_callback
  rw [addCallbackLoop_eq_set]
  cases firstFreeIdx s.callbacks <;> rfl

theorem registeredCount_le_length (cbs : List Callback) :
    registeredCount cbs ≤ cbs.length :=
  List.length_filter_le _ _

theorem slot_ge_of_mem_runCallbacksFrom (cbs : List Callback) :
    ∀ (j : Nat) (ev : log_Event) (c : CallbackCall),
      c ∈ runCallbacksFrom cbs j ev → j ≤ c.slot := by
  induction cbs with
  | nil => intro j ev c h; simp [runCallbacksFrom] at h
  | cons cb rest ih =>
    intro j ev c h
    simp only [runCallbacksFrom] at h
    cases hfn : cb.fn with
    | none => simp [hfn] at h
    | some f =>
      simp only [hfn, List.mem_append] at h
      rcases h with h | h
      · rcases Decidable.em (ev.level ≥ cb.level) with hl | hl
        · simp [hl] at h; simp [h]
        · simp [hl] at h
      · have := ih (j + 1) ev c h
        omega

theorem invokesSlot_of_lt (cbs : List Callback) (j : Nat) (ev : log_Event)
    (i : Nat) (h : i < j) : invokesSlot (runCallbacksFrom cbs j ev) i = false := by
  rw [invokesSlot, List.any_eq_false]
  intro c hc
  have := slot_ge_of_mem_runCallbacksFrom cbs j ev c hc
  simp only [beq_iff_eq]
  omega

/-- The dispatch loop invokes slot `j + k` of the remaining array exactly
when `slotFires` says so. -/
theorem invokesSlot_runCallbacksFrom (cbs : List Callback) :
    ∀ (k j : Nat) (ev : log_Event),
      invokesSlot (runCallbacksFrom cbs j ev) (j + k) = slotFires cbs k ev.level := by
  induction cbs with
  | nil => intro k j ev; simp [runCallbacksFrom, slotFires, invokesSlot]
  | cons cb rest ih =>
    intro k j ev
    cases hfn : cb.fn with
    | none =>
      cases k <;> simp [runCallbacksFrom, hfn, slotFires, invokesSlot]
    | some f =>
      cases k with
      | zero =>
        simp only [runCallbacksFrom, hfn, slotFires, invokesSlot, Nat.add_zero,
          List.any_append]
        have hrest : (runCallbacksFrom rest (j + 1) ev).any (fun c => c.slot == j)
            = false :=
          invokesSlot_of_lt rest (j + 1) ev j (by omega)
        rw [hrest, Bool.or_false]
        rcases Decidable.em (ev.level ≥ cb.level) with hl | hl
        · simp [hl]
        · simp [hl]
      | succ k =>
        simp only [runCallbacksFrom, hfn, invokesSlot, List.any_append]
        have hfirst : ∀ l : List CallbackCall,
            (∀ c ∈ l, c.slot = j) → l.any (fun c => c.slot == j + (k + 1)) = false := by
          intro l hl
          rw [List.any_eq_false]
          intro c hc
          have := hl c hc
          simp only [beq_iff_eq]
          omega
        rw [hfirst _ (by intro c hc; split at hc <;> simp at hc; simp [hc]),
          Bool.false_or]
        have h := ih k (j + 1) ev
        rw [show j + 1 + k = j + (k + 1) by omega] at h
        rw [show slotFires (cb :: rest) (k + 1) ev.level
            = (cb.fn.isSome && slotFires rest k ev.level) from rfl, hfn]
        simp only [Option.isSome_some, Bool.true_and]
        exact h

/-- Whether slot `i` fires on a `log_log` call is `slotFires` of the
state's callback array at the call's level. -/
theorem invokesSlot_log_log (s : LogState) (now : Tm) (level : Int)
    (file : String) (line : Int) (msg : String) (i : Nat) :
    invokesSlot (log_log s now level file line msg).2 i
      = slotFires s.callbacks i level := by
  have h := invokesSlot_runCallbacksFrom s.callbacks i 0
    { msg := msg, file := file, line := line, level := level, time := now, udata := none }
  simpa [log_log] using h

/-- Whether slot `k` fires depends only on which earlier slots are
occupied and on slot `k`'s own entry; in particular not on the global
level, the quiet flag, or other slots' thresholds or udata. -/
theorem slotFires_congr (cbs cbs' : List Callback) (k : Nat) (level : Int)
    (hfn : cbs.map Callback.fn = cbs'.map Callback.fn)
    (hk : cbs[k]? = cbs'[k]?) :
    slotFires cbs k level = slotFires cbs' k level := by
  induction cbs generalizing cbs' k with
  | nil =>
    cases cbs' with
    | nil => rfl
    | cons c' rest' => simp at hfn
  | cons c rest ih =>
    cases cbs' with
    | nil => simp at hfn
    | cons c' rest' =>
      simp only [List.map_cons, List.cons.injEq] at hfn
      cases k with
      | zero =>
        simp only [List.getElem?_cons_zero, Option.some.injEq] at hk
        simp [slotFires, hk]
      | succ k =>
        simp only [List.getElem?_cons_succ] at hk
        simp [slotFires, hfn.1, ih rest' k hfn.2 hk]

/-- The structural invariant of reachable logger states: the callback
array has exactly `MAX_CALLBACKS` slots and the occupied slots form a
contiguous initial run (slot 1 is occupied only if slot 0 is). -/
def StateInv (s : LogState) : Prop :=
  ∃ c0 c1, s.callbacks = [c0, c1] ∧ (c1.fn.isSome = true → c0.fn.isSome = true)

theorem stateInv_applyOp (s : LogState) (op : LogOp) (h : StateInv s) :
    StateInv (applyOp s op) := by
  obtain ⟨c0, c1, hcbs, hcontig⟩ := h
  cases op with
  | set_level level => exact ⟨c0, c1, by simp [applyOp, log_set_level, hcbs], hcontig⟩
  | set_quiet enable => exact ⟨c0, c1, by simp [applyOp, log_set_quiet, hcbs], hcontig⟩
  | log now level file line msg => exact ⟨c0, c1, by simp [applyOp, hcbs], hcontig⟩
  | add_callback fn udata level =>
    simp only [applyOp, log_add_callback, hcbs, addCallbackLoop]
    by_cases h0 : c0.fn.isNone
    · refine ⟨⟨fn, udata, level⟩, c1, by simp [h0], ?_⟩
      intro h1
      exact absurd (hcontig h1) (by simp_all [Option.isNone_iff_eq_none])
    · by_cases h1 : c1.fn.isNone
      · exact ⟨c0, ⟨fn, udata, level⟩, by simp [h0, h1], fun _ => by
          simp [Option.isSome_iff_ne_none, Option.isNone_iff_eq_none] at h0 ⊢; exact h0⟩
      · exact ⟨c0, c1, by simp [h0, h1, hcbs], hcontig⟩
  | add_fp file level =>
    simp only [applyOp, log_add_fp, log_add_callback, hcbs, addCallbackLoop]
    by_cases h0 : c0.fn.isNone
    · exact ⟨⟨some file_callback_ptr, file, level⟩, c1, by simp [h0], fun _ => by simp⟩
    · by_cases h1 : c1.fn.isNone
      · exact ⟨c0, ⟨some file_callback_ptr, file, level⟩, by simp [h0, h1], fun _ => by
          simp [Option.isSome_iff_ne_none, Option.isNone_iff_eq_none] at h0 ⊢; exact h0⟩
      · exact ⟨c0, c1, by simp [h0, h1, hcbs], hcontig⟩

theorem reachable_stateInv (s : LogState) (h : Reachable s) : StateInv s := by
  induction h with
  | init =>
    exact ⟨⟨none, 0, 0⟩, ⟨none, 0, 0⟩, by simp [initState, MAX_CALLBACKS, List.replicate],
      by simp⟩
  | step op _ ih => exact stateInv_applyOp _ op ih

theorem slotFires_of_fn_none (cbs : List Callback) :
    ∀ (k : Nat) (level : Int), cbs[k]?.map Callback.fn = some none →
      slotFires cbs k level = false := by
  induction cbs with
  | nil => intro k level h; simp at h
  | cons c rest ih =>
    intro k level h
    cases k with
    | zero =>
      simp only [List.getElem?_cons_zero, Option.map_some', Option.some.injEq] at h
      simp [slotFires, h]
    | succ k =>
      simp only [List.getElem?_cons_succ] at h
      simp [slotFires, ih k level h]

theorem registeredCount_cons (c : Callback) (rest : List Callback) :
    registeredCount (c :: rest)
      = (if c.fn.isSome then 1 else 0) + registeredCount rest := by
  simp only [registeredCount, List.filter]
  split <;> simp_all [Nat.add_comm]

theorem firstFreeIdx_eq_none_iff (cbs : List Callback) :
    firstFreeIdx cbs = none ↔ registeredCount cbs = cbs.length := by
  induction cbs with
  | nil => simp [firstFreeIdx, registeredCount]
  | cons c rest ih =>
    have hlen := registeredCount_le_length rest
    cases hc : c.fn with
    | none =>
      simp only [firstFreeIdx, registeredCount_cons, hc]
      simp only [Option.isNone_none, if_true, Option.isSome_none]
      constructor
      · intro h; simp at h
      · intro h; exfalso; simp at h; omega
    | some f =>
      simp only [firstFreeIdx, registeredCount_cons, hc]
      simp [ih]
      constructor <;> intro h <;> omega

/-! ## The claims -/

/-- Claim C1: for the default console sink, a log call emits if and only
if the quiet flag is false and the call's level is at least the global
level; in particular, for every pair of levels `L1 < L2`, a log call at
`L1` produces no console-sink output when the global level is `L2`. -/
theorem C1_console_gate (s : LogState) (now : Tm) (level : Int) (file : String)
    (line : Int) (msg : String) :
    ((log_log s now level file line msg).1.isSome = true
      ↔ (s.quiet = false ∧ level ≥ s.level))
  ∧ ∀ L1 L2 : Int, L1 < L2 →
      (log_log (log_set_level s L2) now L1 file line msg).1 = none := by
  constructor
  · by_cases hq : s.quiet <;> by_cases hl : level ≥ s.level <;>
      simp [log_log, hq, hl]
  · intro L1 L2 h
    have hgt : ¬ (L1 ≥ L2) := by omega
    simp [log_log, log_set_level, hgt]

theorem C1_console_gate_witness :
    (0 : Int) < 1
  ∧ (log_log (log_set_level initState 1) ⟨0, 0, 0, 0, 0, 0⟩ 0 "f.c" 1 "m").1 = none :=
  ⟨by decide,
    (C1_console_gate initState ⟨0, 0, 0, 0, 0, 0⟩ 0 "f.c" 1 "m").2 0 1 (by decide)⟩

/-- Claim C4: after `log_set_quiet true` the default console sink
produces no output for any log call at any level, while the registered
callbacks behave identically for every value of the quiet flag. -/
theorem C4_quiet_suppression (s : LogState) (now : Tm) (level : Int) (file : String)
    (line : Int) (msg : String) :
    (log_log (log_set_quiet s true) now level file line msg).1 = none
  ∧ ∀ b : Bool, (log_log (log_set_quiet s b) now level file line msg).2
      = (log_log s now level file line msg).2 := by
  constructor
  · simp [log_log, log_set_quiet]
  · intro b; rfl

/-- Claim C5: `ErrorCodeToString` returns exactly the literal assigned to
each of the four defined codes, and the table lookup is in bounds on the
whole enumeration range. -/
theorem C5_error_code_table :
    ErrorCodeToString 0 = some "CU_SUCCESS"
  ∧ ErrorCodeToString 1 = some "CU_FAILURE"
  ∧ ErrorCodeToString 2 = some "CU_LOG_FILE_ERROR"
  ∧ ErrorCodeToString 3 = some "CU_FILE_CLOSE_ERROR"
  ∧ ∀ code : Nat, code < 4 → (ErrorCodeToString code).isSome = true := by
  refine ⟨rfl, rfl, rfl, rfl, ?_⟩
  intro code h
  interval_cases code <;> rfl

theorem C5_error_code_table_witness :
    (3 : Nat) < 4 ∧ (ErrorCodeToString 3).isSome = true :=
  ⟨by decide, C5_error_code_table.2.2.2.2 3 (by decide)⟩

/-- Claim C8: `log_add_callback` is atomic on failure: whenever it
returns -1 the whole logger state is exactly as it was before the
call. -/
theorem C8_add_callback_atomic_failure (s : LogState) (fn : Option Nat) (u : Nat)
    (l : Int) (h : (log_add_callback s fn u l).2 = -1) :
    (log_add_callback s fn u l).1 = s := by
  rw [log_add_callback_eq] at h ⊢
  cases hf : firstFreeIdx s.callbacks with
  | none => simp [hf]
  | some i => rw [hf] at h; simp at h

theorem C8_add_callback_atomic_failure_witness :
    (log_add_callback
        (log_add_callback (log_add_callback initState (some 5) 7 2).1 (some 6) 8 3).1
        (some 9) 1 0).2 = -1
  ∧ (log_add_callback
        (log_add_callback (log_add_callback initState (some 5) 7 2).1 (some 6) 8 3).1
        (some 9) 1 0).1
      = (log_add_callback (log_add_callback initState (some 5) 7 2).1 (some 6) 8 3).1 :=
  ⟨by decide,
    C8_add_callback_atomic_failure
      (log_add_callback (log_add_callback initState (some 5) 7 2).1 (some 6) 8 3).1
      (some 9) 1 0 (by decide)⟩


/-- Claim C3: `log_add_callback` returns 0 and stores the
(function, user data, level) triple when fewer than two callbacks are
registered, returns -1 when two are already registered, and
registration-capacity overflow is the only failure path. -/
theorem C3_add_callback_capacity (s : LogState) (fn : Option Nat) (u : Nat) (l : Int)
    (hlen : s.callbacks.length = MAX_CALLBACKS) :
    (registeredCount s.callbacks < MAX_CALLBACKS →
      (log_add_callback s fn u l).2 = 0
      ∧ ∃ i, i < MAX_CALLBACKS
          ∧ (log_add_callback s fn u l).1.callbacks[i]? = some ⟨fn, u, l⟩)
  ∧ (registeredCount s.callbacks = MAX_CALLBACKS →
      log_add_callback s fn u l = (s, -1))
  ∧ ((log_add_callback s fn u l).2 ≠ 0 →
      (log_add_callback s fn u l).2 = -1
      ∧ registeredCount s.callbacks = MAX_CALLBACKS) := by
  rw [log_add_callback_eq]
  refine ⟨?_, ?_, ?_⟩
  · intro hcount
    cases hf : firstFreeIdx s.callbacks with
    | none =>
      exfalso
      rw [firstFreeIdx_eq_none_iff, hlen] at hf
      omega
    | some i =>
      have hilt : i < s.callbacks.length := firstFreeIdx_lt_length _ _ hf
      refine ⟨rfl, i, by omega, ?_⟩
      simp [List.getElem?_set_self hilt]
  · intro hcount
    cases hf : firstFreeIdx s.callbacks with
    | none => rfl
    | some i =>
      exfalso
      have hn : firstFreeIdx s.callbacks = none := by
        rw [firstFreeIdx_eq_none_iff, hlen]; exact hcount
      rw [hn] at hf; exact Option.noConfusion hf
  · intro hret
    cases hf : firstFreeIdx s.callbacks with
    | none =>
      refine ⟨rfl, ?_⟩
      rw [firstFreeIdx_eq_none_iff, hlen] at hf
      exact hf
    | some i => rw [hf] at hret; simp at hret

theorem C3_add_callback_capacity_witness :
    initState.callbacks.length = MAX_CALLBACKS
  ∧ registeredCount initState.callbacks < MAX_CALLBACKS
  ∧ ((log_add_callback initState (some 5) 7 2).2 = 0
      ∧ ∃ i, i < MAX_CALLBACKS
          ∧ (log_add_callback initState (some 5) 7 2).1.callbacks[i]?
              = some ⟨some 5, 7, 2⟩) :=
  ⟨by decide, by decide,
    (C3_add_callback_capacity initState (some 5) 7 2 (by decide)).1 (by decide)⟩

/-- Claim C7: the callback registration list is append-only: over every
reachable logger state and every interface operation, each registered
callback triple stays unchanged in its slot. -/
theorem C7_append_only (s : LogState) (_hr : Reachable s) (op : LogOp) (i : Nat)
    (cb : Callback) (hi : s.callbacks[i]? = some cb) (hfn : cb.fn.isSome = true) :
    (applyOp s op).callbacks[i]? = some cb := by
  have key : ∀ fn u l, (log_add_callback s fn u l).1.callbacks[i]? = some cb := by
    intro fn u l
    rw [log_add_callback_eq]
    cases hf : firstFreeIdx s.callbacks with
    | none => simpa using hi
    | some j =>
      have hspec := firstFreeIdx_spec _ _ hf
      have hij : j ≠ i := by
        intro he; subst he
        rw [hi] at hspec; simp at hspec
        rw [hspec] at hfn; simp at hfn
      simpa [List.getElem?_set_ne hij] using hi
  cases op with
  | set_level l => simpa [applyOp, log_set_level] using hi
  | set_quiet b => simpa [applyOp, log_set_quiet] using hi
  | log now level file line msg => simpa [applyOp] using hi
  | add_callback fn u l => simpa [applyOp] using key fn u l
  | add_fp f l => simpa [applyOp, log_add_fp] using key (some file_callback_ptr) f l

theorem C7_append_only_witness :
    Reachable (log_add_callback initState (some 5) 7 2).1
  ∧ (log_add_callback initState (some 5) 7 2).1.callbacks[0]? = some ⟨some 5, 7, 2⟩
  ∧ (applyOp (log_add_callback initState (some 5) 7 2).1
      (LogOp.add_callback (some 6) 8 3)).callbacks[0]? = some ⟨some 5, 7, 2⟩ :=
  ⟨Reachable.step (LogOp.add_callback (some 5) 7 2) Reachable.init,
    by decide,
    C7_append_only (log_add_callback initState (some 5) 7 2).1
      (Reachable.step (LogOp.add_callback (some 5) 7 2) Reachable.init)
      (LogOp.add_callback (some 6) 8 3) 0 ⟨some 5, 7, 2⟩ (by decide) (by decide)⟩


/-- In a reachable state, a registered (non-NULL) callback fires exactly
when the call's level reaches its own threshold: the contiguity of the
occupied slots guarantees the dispatch loop reaches it. -/
theorem slotFires_of_reachable (s : LogState) (hr : Reachable s) (i : Nat)
    (cb : Callback) (hi : s.callbacks[i]? = some cb) (hfn : cb.fn.isSome = true)
    (level : Int) :
    slotFires s.callbacks i level = decide (level ≥ cb.level) := by
  obtain ⟨c0, c1, hcbs, hcontig⟩ := reachable_stateInv s hr
  rw [hcbs] at hi ⊢
  match i, hi with
  | 0, hi =>
    obtain rfl : c0 = cb := by simpa using hi
    simp [slotFires, hfn]
  | 1, hi =>
    obtain rfl : c1 = cb := by simpa using hi
    simp [slotFires, hfn, hcontig hfn]

theorem registeredCount_set_of_free (cbs : List Callback) :
    ∀ (i : Nat) (u : Nat) (l : Int), cbs[i]?.map Callback.fn = some none →
      registeredCount (cbs.set i ⟨none, u, l⟩) = registeredCount cbs := by
  induction cbs with
  | nil => intro i u l h; simp at h
  | cons c rest ih =>
    intro i u l h
    cases i with
    | zero =>
      simp only [List.getElem?_cons_zero, Option.map_some', Option.some.injEq] at h
      simp [List.set, registeredCount_cons, h]
    | succ i =>
      simp only [List.getElem?_cons_succ] at h
      simp [List.set, registeredCount_cons, ih i u l h]

theorem firstFreeIdx_set_none (cbs : List Callback) :
    ∀ (i : Nat) (u : Nat) (l : Int), firstFreeIdx cbs = some i →
      firstFreeIdx (cbs.set i ⟨none, u, l⟩) = some i := by
  induction cbs with
  | nil => intro i u l h; simp [firstFreeIdx] at h
  | cons c rest ih =>
    intro i u l h
    by_cases hc : c.fn.isNone
    · simp only [firstFreeIdx, hc, if_true] at h
      obtain rfl : i = 0 := by simpa using h.symm
      simp [List.set, firstFreeIdx]
    · simp only [firstFreeIdx, hc, if_false] at h
      cases hrest : firstFreeIdx rest with
      | none => rw [hrest] at h; simp at h
      | some j =>
        rw [hrest] at h
        obtain rfl : i = j + 1 := by simpa using h.symm
        simp [List.set, firstFreeIdx, hc, ih j u l hrest]

/-- Claim C2: a log call invokes a registered callback exactly when the
call's level reaches that callback's own threshold, and whether it is
invoked is unchanged between two states agreeing on the occupancy
pattern and on that callback's slot (so the global level, the quiet
flag, the timestamps and the other slots' thresholds and udata are all
irrelevant to it). -/
theorem C2_callback_threshold_independence (s : LogState) (now : Tm) (level : Int)
    (file : String) (line : Int) (msg : String) (i : Nat) (cb : Callback) :
    (Reachable s → s.callbacks[i]? = some cb → cb.fn.isSome = true →
      (invokesSlot (log_log s now level file line msg).2 i = true ↔ level ≥ cb.level))
  ∧ (∀ (s' : LogState) (now' : Tm) (file' : String) (line' : Int) (msg' : String),
      s.callbacks.map Callback.fn = s'.callbacks.map Callback.fn →
      s.callbacks[i]? = some cb → s'.callbacks[i]? = some cb →
      invokesSlot (log_log s now level file line msg).2 i
        = invokesSlot (log_log s' now' level file' line' msg').2 i) := by
  constructor
  · intro hr hi hfn
    rw [invokesSlot_log_log, slotFires_of_reachable s hr i cb hi hfn level]
    exact decide_eq_true_iff
  · intro s' now' file' line' msg' hmap hi hi'
    rw [invokesSlot_log_log, invokesSlot_log_log]
    exact slotFires_congr s.callbacks s'.callbacks i level hmap (hi.trans hi'.symm)

theorem C2_callback_threshold_independence_witness :
    Reachable (log_add_callback initState (some 5) 7 2).1
  ∧ (log_add_callback initState (some 5) 7 2).1.callbacks[0]? = some ⟨some 5, 7, 2⟩
  ∧ (invokesSlot
        (log_log (log_add_callback initState (some 5) 7 2).1
          ⟨0, 0, 0, 0, 0, 0⟩ 3 "f.c" 1 "m").2 0 = true
      ↔ (3 : Int) ≥ 2) :=
  ⟨Reachable.step (LogOp.add_callback (some 5) 7 2) Reachable.init, by decide,
    (C2_callback_threshold_independence (log_add_callback initState (some 5) 7 2).1
        ⟨0, 0, 0, 0, 0, 0⟩ 3 "f.c" 1 "m" 0 ⟨some 5, 7, 2⟩).1
      (Reachable.step (LogOp.add_callback (some 5) 7 2) Reachable.init)
      (by decide) (by decide)⟩

/-- Claim C9: `log_add_callback` with a NULL function pointer succeeds
(given a free slot) yet registers no active sink: the registered count
is unchanged, the written slot is still the first free one, a subsequent
registration overwrites it, and no log call ever invokes it. -/
theorem C9_null_callback (s : LogState) (u : Nat) (l : Int) (i : Nat)
    (hfree : firstFreeIdx s.callbacks = some i) :
    (log_add_callback s none u l).2 = 0
  ∧ registeredCount (log_add_callback s none u l).1.callbacks
      = registeredCount s.callbacks
  ∧ firstFreeIdx (log_add_callback s none u l).1.callbacks = some i
  ∧ (∀ (fn' : Option Nat) (u' : Nat) (l' : Int),
      (log_add_callback (log_add_callback s none u l).1 fn' u' l').1.callbacks[i]?
        = some ⟨fn', u', l'⟩)
  ∧ (∀ (now : Tm) (level : Int) (file : String) (line : Int) (msg : String),
      invokesSlot (log_log (log_add_callback s none u l).1 now level file line msg).2 i
        = false) := by
  have hilt : i < s.callbacks.length := firstFreeIdx_lt_length _ _ hfree
  have hstate : (log_add_callback s none u l).1
      = { s with callbacks := s.callbacks.set i ⟨none, u, l⟩ } := by
    rw [log_add_callback_eq, hfree]
  have hret : (log_add_callback s none u l).2 = 0 := by
    rw [log_add_callback_eq, hfree]
  have hfree' : firstFreeIdx (log_add_callback s none u l).1.callbacks = some i := by
    rw [hstate]
    exact firstFreeIdx_set_none s.callbacks i u l hfree
  refine ⟨hret, ?_, hfree', ?_, ?_⟩
  · rw [hstate]
    exact registeredCount_set_of_free s.callbacks i u l (firstFreeIdx_spec _ _ hfree)
  · intro fn' u' l'
    rw [log_add_callback_eq, hfree']
    have hilt' : i < (log_add_callback s none u l).1.callbacks.length := by
      rw [hstate]; simpa using hilt
    simp [List.getElem?_set_self hilt']
  · intro now level file line msg
    rw [invokesSlot_log_log]
    apply slotFires_of_fn_none
    rw [hstate]
    simp [List.getElem?_set_self hilt]

theorem C9_null_callback_witness :
    firstFreeIdx initState.callbacks = some 0
  ∧ ((log_add_callback initState none 7 2).2 = 0
    ∧ registeredCount (log_add_callback initState none 7 2).1.callbacks
        = registeredCount initState.callbacks
    ∧ firstFreeIdx (log_add_callback initState none 7 2).1.callbacks = some 0
    ∧ (∀ (fn' : Option Nat) (u' : Nat) (l' : Int),
        (log_add_callback (log_add_callback initState none 7 2).1 fn' u' l').1.callbacks[0]?
          = some ⟨fn', u', l'⟩)
    ∧ (∀ (now : Tm) (level : Int) (file : String) (line : Int) (msg : String),
        invokesSlot
          (log_log (log_add_callback initState none 7 2).1 now level file line msg).2 0
          = false)) :=
  ⟨by decide, C9_null_callback initState 7 2 0 (by decide)⟩

/-- Claim C10: in every reachable state the occupied slots form a
contiguous initial run of the two-slot array (slot 1 occupied only if
slot 0 is), so the dispatch loop, which stops at the first NULL function
pointer, reaches every registered callback: a registered callback's
invocation is decided by its own threshold alone. -/
theorem C10_contiguous_slots (s : LogState) (hr : Reachable s) :
    (∀ c1, s.callbacks[1]? = some c1 → c1.fn.isSome = true →
      ∃ c0, s.callbacks[0]? = some c0 ∧ c0.fn.isSome = true)
  ∧ (∀ (now : Tm) (level : Int) (file : String) (line : Int) (msg : String)
      (i : Nat) (cb : Callback), s.callbacks[i]? = some cb → cb.fn.isSome = true →
      invokesSlot (log_log s now level file line msg).2 i
        = decide (level ≥ cb.level)) := by
  obtain ⟨c0, c1, hcbs, hcontig⟩ := reachable_stateInv s hr
  constructor
  · intro c1' h1 hfn1
    rw [hcbs] at h1
    obtain rfl : c1 = c1' := by simpa using h1
    exact ⟨c0, by simp [hcbs], hcontig hfn1⟩
  · intro now level file line msg i cb hi hfn
    rw [invokesSlot_log_log]
    exact slotFires_of_reachable s hr i cb hi hfn level

theorem C10_contiguous_slots_witness :
    Reachable (log_add_fp initState 9 1).1
  ∧ ((∀ c1, (log_add_fp initState 9 1).1.callbacks[1]? = some c1 →
        c1.fn.isSome = true →
        ∃ c0, (log_add_fp initState 9 1).1.callbacks[0]? = some c0
          ∧ c0.fn.isSome = true)
    ∧ (∀ (now : Tm) (level : Int) (file : String) (line : Int) (msg : String)
        (i : Nat) (cb : Callback),
        (log_add_fp initState 9 1).1.callbacks[i]? = some cb →
        cb.fn.isSome = true →
        invokesSlot (log_log (log_add_fp initState 9 1).1 now level file line msg).2 i
          = decide (level ≥ cb.level))) :=
  ⟨Reachable.step (LogOp.add_fp 9 1) Reachable.init,
    C10_contiguous_slots (log_add_fp initState 9 1).1
      (Reachable.step (LogOp.add_fp 9 1) Reachable.init)⟩


/-- Claim C6: every emission writes a line made of a timestamp
(`HH:MM:SS` for the console sink, `YYYY-MM-DD HH:MM:SS` for the file
sink), a level tag, `file:line`, and the formatted message,
newline-terminated, and flushes the destination immediately. -/
theorem C6_emission_format (ev : log_Event) (_h0 : 0 ≤ ev.level)
    (_h6 : ev.level < 6) :
    (stdout_callback ev).written
      = strftime_HMS ev.time ++ " " ++ padLeftJust (levelTag ev.level) 6 ++ " "
        ++ ev.file ++ ":" ++ toString ev.line ++ ": " ++ ev.msg ++ "\n"
  ∧ (stdout_callback ev).flushed = true
  ∧ (file_callback ev).written
      = strftime_YMDHMS ev.time ++ " " ++ padLeftJust (levelTag ev.level) 6 ++ " "
        ++ ev.file ++ ":" ++ toString ev.line ++ ": " ++ ev.msg ++ "\n"
  ∧ (file_callback ev).flushed = true := by
  refine ⟨?_, rfl, ?_, rfl⟩
  · show formatPrintf "%s %-6s %s:%d: ".data
        [FmtArg.str (strftime_HMS ev.time), FmtArg.str (levelTag ev.level),
         FmtArg.str ev.file, FmtArg.int ev.line] ++ ev.msg ++ "\n" = _
    rw [show formatPrintf "%s %-6s %s:%d: ".data
          [FmtArg.str (strftime_HMS ev.time), FmtArg.str (levelTag ev.level),
           FmtArg.str ev.file, FmtArg.int ev.line]
        = strftime_HMS ev.time ++ (" " ++ (padLeftJust (levelTag ev.level) 6 ++ (" " ++
          (ev.file ++ (":" ++ (toString ev.line ++ (":" ++ (" " ++ ""))))))))
        from rfl]
    simp [String.append_assoc]
  · show formatPrintf "%s %-6s %s:%d: ".data
        [FmtArg.str (strftime_YMDHMS ev.time), FmtArg.str (levelTag ev.level),
         FmtArg.str ev.file, FmtArg.int ev.line] ++ ev.msg ++ "\n" = _
    rw [show formatPrintf "%s %-6s %s:%d: ".data
          [FmtArg.str (strftime_YMDHMS ev.time), FmtArg.str (levelTag ev.level),
           FmtArg.str ev.file, FmtArg.int ev.line]
        = strftime_YMDHMS ev.time ++ (" " ++ (padLeftJust (levelTag ev.level) 6 ++ (" " ++
          (ev.file ++ (":" ++ (toString ev.line ++ (":" ++ (" " ++ ""))))))))
        from rfl]
    simp [String.append_assoc]

theorem C6_emission_format_witness :
    (0 : Int) ≤ 3 ∧ (3 : Int) < 6
  ∧ ((stdout_callback ⟨"m", "f.c", 1, 3, ⟨2024, 1, 2, 3, 4, 5⟩, none⟩).written
      = strftime_HMS (⟨2024, 1, 2, 3, 4, 5⟩ : Tm) ++ " "
        ++ padLeftJust (levelTag 3) 6 ++ " " ++ "f.c" ++ ":" ++ toString (1 : Int)
        ++ ": " ++ "m" ++ "\n"
    ∧ (stdout_callback ⟨"m", "f.c", 1, 3, ⟨2024, 1, 2, 3, 4, 5⟩, none⟩).flushed = true
    ∧ (file_callback ⟨"m", "f.c", 1, 3, ⟨2024, 1, 2, 3, 4, 5⟩, none⟩).written
      = strftime_YMDHMS (⟨2024, 1, 2, 3, 4, 5⟩ : Tm) ++ " "
        ++ padLeftJust (levelTag 3) 6 ++ " " ++ "f.c" ++ ":" ++ toString (1 : Int)
        ++ ": " ++ "m" ++ "\n"
    ∧ (file_callback ⟨"m", "f.c", 1, 3, ⟨2024, 1, 2, 3, 4, 5⟩, none⟩).flushed = true) :=
  ⟨by decide, by decide,
    C6_emission_format ⟨"m", "f.c", 1, 3, ⟨2024, 1, 2, 3, 4, 5⟩, none⟩
      (by decide) (by decide)⟩

end Culibc
